import Mathlib

/-!
Verification of `ruma-identifiers`: the `RoomIdOrAliasId` type
(`src/crates/ruma-identifiers/src/room_id_or_room_alias_id.rs`).

Identifier strings are modelled as lists of characters (`Str`).  The
validation functions of the `ruma_identifiers_validation` crate and the
items generated by the `opaque_identifier_validated!` macro are not part
of the sources; they are modelled from the specification and marked
`Modelled from the spec:` below.  The `ServerName` collaborator is kept
abstract: every theorem is stated for an arbitrary server-name validator
`snv : Str → Bool`, and a concrete sample validator is provided only to
instantiate witnesses.
-/

namespace Ruma

/-- Identifier strings, modelled as lists of characters. -/
abbrev Str := List Char

/-- The validation error taxonomy of the crate (`ruma_identifiers::Error`),
restricted to the kinds this type can produce. -/
inductive Error where
  | MissingLeadingSigil
  | MissingDelimiter
  | InvalidServerName
  deriving DecidableEq, Repr

/-- Position of the first colon in a character list; `none` when no colon
occurs.  This embeds the Rust `str::find(':')` calls. -/
def findColon : Str → Option Nat
  | [] => none
  | c :: cs => if c = ':' then some 0 else (findColon cs).map (· + 1)

/-- Host characters of the sample server-name validator. -/
def isHostChar (c : Char) : Bool := c.isAlphanum || c = '.' || c = '-'

/-- Modelled from the spec: a concrete instance of the `ServerName`
collaborator validator (`ruma_identifiers_validation::server_name::validate`,
not under `src/`): a nonempty host of alphanumeric, dot and dash characters,
optionally followed by a colon and a nonempty decimal port.  The theorems
below hold for every validator `snv`; this one only instantiates witnesses. -/
def serverNameValidate (s : Str) : Bool :=
  match findColon s with
  | none => !s.isEmpty && s.all isHostChar
  | some i =>
    let host := s.take i
    let port := s.drop (i + 1)
    !host.isEmpty && host.all isHostChar && !port.isEmpty && port.all Char.isDigit

/-- Modelled from the spec: the shared sigil-identifier validation algorithm
of `ruma_identifiers_validation` (not under `src/`), parameterised by the
accepted sigils and the server-name validator `snv`.  In order: reject an
empty string or a first character outside `sigils` with `MissingLeadingSigil`;
reject when no `:` occurs after the sigil with `MissingDelimiter`; validate
the segment after the first `:` as a server name, rejecting failures with
`InvalidServerName`. -/
def validateId (sigils : List Char) (snv : Str → Bool) : Str → Except Error Unit
  | [] => .error .MissingLeadingSigil
  | c :: rest =>
    if c ∈ sigils then
      match findColon rest with
      | none => .error .MissingDelimiter
      | some i =>
        if snv (rest.drop (i + 1)) then .ok () else .error .InvalidServerName
    else .error .MissingLeadingSigil

/-- Modelled from the spec: `ruma_identifiers_validation::room_id::validate`
(not under `src/`): the shared rule with the fixed `!` sigil. -/
def roomIdValidate (snv : Str → Bool) (s : Str) : Except Error Unit :=
  validateId ['!'] snv s

/-- Modelled from the spec:
`ruma_identifiers_validation::room_alias_id::validate` (not under `src/`):
the shared rule with the fixed `#` sigil. -/
def roomAliasIdValidate (snv : Str → Bool) (s : Str) : Except Error Unit :=
  validateId ['#'] snv s

/-- Modelled from the spec: the function `room_id_or_alias_id::validate` of
`ruma_identifiers_validation`, named at src line 34 but with its body not
under `src/`: the shared rule accepting either sigil. -/
def roomIdOrAliasIdValidate (snv : Str → Bool) (s : Str) : Except Error Unit :=
  validateId ['!', '#'] snv s

/-- Modelled from the spec: the validated constructor `TryFrom<&str> for
RoomIdOrAliasId` generated by `opaque_identifier_validated!` (src line 32,
macro body not under `src/`): run the validator and on success wrap the
original bytes unchanged. -/
def roomIdOrAliasIdFromStr (snv : Str → Bool) (s : Str) : Except Error Str :=
  (roomIdOrAliasIdValidate snv s).map fun _ => s

/-- Modelled from the spec: the validated constructor of `RoomId`
(macro-generated, not under `src/`). -/
def roomIdFromStr (snv : Str → Bool) (s : Str) : Except Error Str :=
  (roomIdValidate snv s).map fun _ => s

/-- Modelled from the spec: the validated constructor of `RoomAliasId`
(macro-generated, not under `src/`). -/
def roomAliasIdFromStr (snv : Str → Bool) (s : Str) : Except Error Str :=
  (roomAliasIdValidate snv s).map fun _ => s

/-- The private `Variant` enum (src line 83). -/
inductive Variant where
  | RoomId
  | RoomAliasId
  deriving DecidableEq, Repr

/-- Embeds `RoomIdOrAliasId::variant` (src lines 74-80): classify by the first byte;
`Some(b'!')` gives `RoomId`, `Some(b'#')` gives `RoomAliasId`, and the
`unsafe unreachable_unchecked()` branch taken for any other first byte (or an
empty string) is modelled as `none`.  The Rust byte match is rendered as a
first-character test. -/
def variant : Str → Option Variant
  | [] => none
  | c :: _ =>
    if c = '!' then some Variant.RoomId
    else if c = '#' then some Variant.RoomAliasId
    else none

/-- Embeds `RoomIdOrAliasId::colon_idx` (src lines 70-72): `find(':').unwrap()`;
the potential `unwrap` panic is modelled by `Option`. -/
def colon_idx (s : Str) : Option Nat := findColon s

/-- Embeds `RoomIdOrAliasId::localpart` (src lines 39-41):
`&self.as_str()[1..self.colon_idx()]`. -/
def localpart (s : Str) : Option Str :=
  (colon_idx s).map fun i => (s.take i).drop 1

/-- Embeds `RoomIdOrAliasId::server_name` (src lines 44-46):
`self.as_str()[self.colon_idx() + 1..].try_into().unwrap()`; the `try_into`
re-runs server-name validation and the `unwrap` panic is modelled by
`Option`. -/
def server_name (snv : Str → Bool) (s : Str) : Option Str :=
  (colon_idx s).bind fun i =>
    let seg := s.drop (i + 1)
    if snv seg then some seg else none

/-- Embeds `RoomIdOrAliasId::is_room_id` (src lines 49-51). -/
def is_room_id (s : Str) : Bool := variant s == some Variant.RoomId

/-- Embeds `RoomIdOrAliasId::is_room_alias_id` (src lines 54-56). -/
def is_room_alias_id (s : Str) : Bool := variant s == some Variant.RoomAliasId

/-- The two-case wrapper of the `either` crate used by `into_either`. -/
inductive Either (α β : Type) where
  | left (a : α)
  | right (b : β)
  deriving DecidableEq, Repr

/-- Embeds `RoomIdOrAliasId::into_either` (src lines 58-68): classify, take the
owned bytes out (`into_owned`), and rewrap them unchanged through
`RoomId::from_owned` or `RoomAliasId::from_owned` (macro-generated storage
reinterpretations, modelled from the spec as the identity on the bytes).
The unreachable branch of `variant` is modelled by the outer `Option`. -/
def into_either (s : Str) : Option (Either Str Str) :=
  (variant s).map fun v =>
    match v with
    | Variant.RoomId => Either.left s
    | Variant.RoomAliasId => Either.right s

/-- Embeds `From<Box<RoomId>> for Box<RoomIdOrAliasId>` (src lines 89-93):
`Self::try_from(room_id.as_str()).unwrap()`; the potential panic is modelled
by `Option`. -/
def fromRoomId (snv : Str → Bool) (s : Str) : Option Str :=
  (roomIdOrAliasIdFromStr snv s).toOption

/-- Embeds `From<Box<RoomAliasId>> for Box<RoomIdOrAliasId>` (src lines 95-99). -/
def fromRoomAliasId (snv : Str → Bool) (s : Str) : Option Str :=
  (roomIdOrAliasIdFromStr snv s).toOption

/-- Embeds `TryFrom<Box<RoomIdOrAliasId>> for Box<RoomId>` (src lines 101-110): on
the `RoomId` variant, `Ok` of the re-parsed `RoomId`; on the `RoomAliasId`
variant, `Err` of the re-parsed `RoomAliasId`.  The `unwrap` panics and the
unreachable branch of `variant` are modelled by the outer `Option`; inside,
`Except.ok` carries the `RoomId` bytes and `Except.error` the `RoomAliasId`
bytes. -/
def tryIntoRoomId (snv : Str → Bool) (s : Str) : Option (Except Str Str) :=
  (variant s).bind fun v =>
    match v with
    | Variant.RoomId => (roomIdFromStr snv s).toOption.map Except.ok
    | Variant.RoomAliasId => (roomAliasIdFromStr snv s).toOption.map Except.error

/-- Embeds `TryFrom<Box<RoomIdOrAliasId>> for Box<RoomAliasId>` (src lines 112-121):
symmetric to `tryIntoRoomId`; `Except.ok` carries the `RoomAliasId` bytes and
`Except.error` the `RoomId` bytes. -/
def tryIntoRoomAliasId (snv : Str → Bool) (s : Str) : Option (Except Str Str) :=
  (variant s).bind fun v =>
    match v with
    | Variant.RoomAliasId => (roomAliasIdFromStr snv s).toOption.map Except.ok
    | Variant.RoomId => (roomIdFromStr snv s).toOption.map Except.error

/-- A minimal model of JSON values for the structured encoding. -/
inductive JsonValue where
  | str (s : Str)
  | other
  deriving DecidableEq

/-- Modelled from the spec: text serialization (the `Display`/`as_str` side
of the macro, not under `src/`): the canonical textual form of a value is the
exact byte sequence it was constructed from. -/
def serializeText (s : Str) : Str := s

/-- Modelled from the spec: the serde `Serialize` impl generated by
`opaque_identifier_validated!` (not under `src/`): encode as a single string
scalar equal to the canonical text form. -/
def jsonEncode (s : Str) : JsonValue := JsonValue.str (serializeText s)

/-- Modelled from the spec: the serde `Deserialize` impl generated by
`opaque_identifier_validated!` (not under `src/`): decode a string scalar by
running the validated construction path; a non-string value is a serde type
error outside the crate error taxonomy, modelled as `none`. -/
def jsonDecode (snv : Str → Bool) : JsonValue → Option (Except Error Str)
  | JsonValue.str t => some (roomIdOrAliasIdFromStr snv t)
  | JsonValue.other => none

/-- Sample inputs used by the witnesses (scenario strings of the spec). -/
def aliasSample : Str := "#ruma:example.com".toList

def roomIdSample : Str := "!29fhd83h92h0:example.com".toList

def noSigilSample : Str := "ruma:example.com".toList



theorem findColon_append (l r : Str) (h : ':' ∉ l) :
    findColon (l ++ ':' :: r) = some l.length := by
  induction l with
  | nil => simp [findColon]
  | cons c cs ih =>
    simp only [List.mem_cons, not_or] at h
    simp [findColon, Ne.symm h.1, ih h.2]

theorem findColon_eq_some (cs : Str) (i : Nat) (h : findColon cs = some i) :
    ∃ l r, cs = l ++ ':' :: r ∧ ':' ∉ l ∧ l.length = i := by
  induction cs generalizing i with
  | nil => simp [findColon] at h
  | cons c rest ih =>
    by_cases hc : c = ':'
    · subst hc
      simp [findColon] at h
      exact ⟨[], rest, by simp, by simp, by simp [← h]⟩
    · simp [findColon, hc] at h
      obtain ⟨j, hj, hji⟩ := h
      obtain ⟨l, r, hcs, hnl, hlen⟩ := ih j hj
      refine ⟨c :: l, r, by simp [hcs], ?_, by simp [hlen, hji]⟩
      simp only [List.mem_cons, not_or]
      exact ⟨Ne.symm hc, hnl⟩

theorem take_len_append (l : Str) (c : Char) (r : Str) :
    (l ++ c :: r).take l.length = l := by
  induction l with
  | nil => rfl
  | cons a as ih => simp [ih]

theorem drop_len_succ_append (l : Str) (c : Char) (r : Str) :
    (l ++ c :: r).drop (l.length + 1) = r := by
  induction l with
  | nil => rfl
  | cons a as ih => simp [ih]

theorem validateId_ok_elim (sigils : List Char) (snv : Str → Bool) (s : Str)
    (h : validateId sigils snv s = .ok ()) :
    ∃ c rest i, s = c :: rest ∧ c ∈ sigils ∧ findColon rest = some i ∧
      snv (rest.drop (i + 1)) = true := by
  cases s with
  | nil => simp [validateId] at h
  | cons c rest =>
    simp only [validateId] at h
    by_cases hc : c ∈ sigils
    · rw [if_pos hc] at h
      split at h
      · cases h
      · rename_i i hfc
        split at h
        · rename_i hsnv
          exact ⟨c, rest, i, rfl, hc, hfc, hsnv⟩
        · cases h
    · rw [if_neg hc] at h
      cases h

theorem validateId_ok_intro (sigils : List Char) (snv : Str → Bool)
    (c : Char) (rest : Str) (i : Nat) (hc : c ∈ sigils)
    (hfc : findColon rest = some i) (hsnv : snv (rest.drop (i + 1)) = true) :
    validateId sigils snv (c :: rest) = .ok () := by
  simp only [validateId]
  rw [if_pos hc, hfc]
  exact if_pos hsnv

theorem validateId_union (snv : Str → Bool) (s : Str) :
    roomIdOrAliasIdValidate snv s = .ok () ↔
      (roomIdValidate snv s = .ok () ∨ roomAliasIdValidate snv s = .ok ()) := by
  cases s with
  | nil => simp [roomIdOrAliasIdValidate, roomIdValidate, roomAliasIdValidate, validateId]
  | cons c rest =>
    unfold roomIdOrAliasIdValidate roomIdValidate roomAliasIdValidate validateId
    by_cases h1 : c = '!'
    · simp [h1]
    · by_cases h2 : c = '#' <;> simp [h1, h2]



theorem fromStr_ok_iff (e : Except Error Unit) (s v : Str) :
    e.map (fun _ => s) = .ok v ↔ e = .ok () ∧ v = s := by
  cases e with
  | ok u => cases u; simp [Except.map, eq_comm]
  | error x => simp [Except.map]

theorem variant_cons_roomId (c : Char) (rest : Str) :
    variant (c :: rest) = some Variant.RoomId ↔ c = '!' := by
  by_cases h1 : c = '!'
  · simp [variant, h1]
  · by_cases h2 : c = '#' <;> simp [variant, h1, h2]

theorem variant_cons_alias (c : Char) (rest : Str) :
    variant (c :: rest) = some Variant.RoomAliasId ↔ c = '#' := by
  by_cases h1 : c = '!'
  · simp [variant, h1]
  · by_cases h2 : c = '#' <;> simp [variant, h1, h2]

theorem variant_of_roomIdValidate (snv : Str → Bool) (s : Str)
    (h : roomIdValidate snv s = .ok ()) : variant s = some Variant.RoomId := by
  obtain ⟨c, rest, i, hs, hc, -, -⟩ := validateId_ok_elim _ _ _ h
  subst hs
  simp only [List.mem_singleton] at hc
  exact (variant_cons_roomId c rest).mpr hc

theorem variant_of_roomAliasIdValidate (snv : Str → Bool) (s : Str)
    (h : roomAliasIdValidate snv s = .ok ()) : variant s = some Variant.RoomAliasId := by
  obtain ⟨c, rest, i, hs, hc, -, -⟩ := validateId_ok_elim _ _ _ h
  subst hs
  simp only [List.mem_singleton] at hc
  exact (variant_cons_alias c rest).mpr hc

theorem roomIdValidate_of_union (snv : Str → Bool) (s : Str)
    (h : roomIdOrAliasIdValidate snv s = .ok ())
    (hv : variant s = some Variant.RoomId) : roomIdValidate snv s = .ok () := by
  obtain ⟨c, rest, i, hs, hc, hfc, hsnv⟩ := validateId_ok_elim _ _ _ h
  subst hs
  have hc1 : c = '!' := (variant_cons_roomId c rest).mp hv
  exact validateId_ok_intro _ snv c rest i (by simp [hc1]) hfc hsnv

theorem roomAliasIdValidate_of_union (snv : Str → Bool) (s : Str)
    (h : roomIdOrAliasIdValidate snv s = .ok ())
    (hv : variant s = some Variant.RoomAliasId) : roomAliasIdValidate snv s = .ok () := by
  obtain ⟨c, rest, i, hs, hc, hfc, hsnv⟩ := validateId_ok_elim _ _ _ h
  subst hs
  have hc1 : c = '#' := (variant_cons_alias c rest).mp hv
  exact validateId_ok_intro _ snv c rest i (by simp [hc1]) hfc hsnv

theorem union_variant_total (snv : Str → Bool) (s : Str)
    (h : roomIdOrAliasIdValidate snv s = .ok ()) :
    variant s = some Variant.RoomId ∨ variant s = some Variant.RoomAliasId := by
  obtain ⟨c, rest, i, hs, hc, -, -⟩ := validateId_ok_elim _ _ _ h
  subst hs
  simp only [List.mem_cons, List.not_mem_nil, or_false] at hc
  rcases hc with hc | hc
  · exact Or.inl ((variant_cons_roomId c rest).mpr hc)
  · exact Or.inr ((variant_cons_alias c rest).mpr hc)

/-- Structural decomposition of a string accepted by the shared validator:
it is a sigil, a colon-free localpart, a colon, and a server-name segment
the validator accepts, and the accessor slices land exactly there. -/
theorem validateId_ok_decomp (sigils : List Char) (snv : Str → Bool) (s : Str)
    (hcs : ':' ∉ sigils) (h : validateId sigils snv s = .ok ()) :
    ∃ c l r, s = c :: (l ++ ':' :: r) ∧ c ∈ sigils ∧ ':' ∉ l ∧ snv r = true ∧
      findColon s = some (l.length + 1) ∧
      (s.take (l.length + 1)).drop 1 = l ∧
      s.drop (l.length + 2) = r := by
  obtain ⟨c, rest, i, hs, hc, hfc, hsnv⟩ := validateId_ok_elim _ _ _ h
  obtain ⟨l, r, hrest, hnl, hlen⟩ := findColon_eq_some rest i hfc
  subst hs hrest
  subst hlen
  have hcne : ¬ c = ':' := fun hcc => hcs (hcc ▸ hc)
  have hdrop : (l ++ ':' :: r).drop (l.length + 1) = r := drop_len_succ_append l ':' r
  refine ⟨c, l, r, rfl, hc, hnl, ?_, ?_, ?_, ?_⟩
  · rw [hdrop] at hsnv
    exact hsnv
  · simp [findColon, hcne, findColon_append l r hnl]
  · simp [List.take_succ_cons, take_len_append]
  · show (l ++ ':' :: r).drop (l.length + 1) = r
    exact hdrop



theorem fromStr_isOk (e : Except Error Unit) (s : Str) :
    (∃ v, e.map (fun _ => s) = .ok v) ↔ e = .ok () := by
  cases e with
  | ok u => cases u; simp [Except.map]
  | error x => simp [Except.map]

/-- Claim C1: every string accepted by the `RoomId` validator or by the
`RoomAliasId` validator is accepted by the `RoomIdOrAliasId` constructor, the
parsed value classifies with the variant of the concrete type that accepted
it, and no string rejected by both concrete validators is accepted: the
acceptance set equals the union of the two concrete acceptance sets, for
every server-name validator `snv`. -/
theorem parse_union_of_concrete (snv : Str → Bool) (s : Str) :
    ((∃ v, roomIdOrAliasIdFromStr snv s = .ok v) ↔
      ((∃ v, roomIdFromStr snv s = .ok v) ∨ (∃ v, roomAliasIdFromStr snv s = .ok v)))
    ∧ (∀ v, roomIdFromStr snv s = .ok v →
        roomIdOrAliasIdFromStr snv s = .ok v ∧ variant v = some Variant.RoomId)
    ∧ (∀ v, roomAliasIdFromStr snv s = .ok v →
        roomIdOrAliasIdFromStr snv s = .ok v ∧ variant v = some Variant.RoomAliasId) := by
  refine ⟨?_, ?_, ?_⟩
  · simp only [roomIdOrAliasIdFromStr, roomIdFromStr, roomAliasIdFromStr, fromStr_isOk]
    exact validateId_union snv s
  · intro v hv
    rw [roomIdFromStr, fromStr_ok_iff] at hv
    obtain ⟨hval, rfl⟩ := hv
    refine ⟨?_, variant_of_roomIdValidate snv v hval⟩
    rw [roomIdOrAliasIdFromStr, fromStr_ok_iff]
    exact ⟨(validateId_union snv v).mpr (Or.inl hval), rfl⟩
  · intro v hv
    rw [roomAliasIdFromStr, fromStr_ok_iff] at hv
    obtain ⟨hval, rfl⟩ := hv
    refine ⟨?_, variant_of_roomAliasIdValidate snv v hval⟩
    rw [roomIdOrAliasIdFromStr, fromStr_ok_iff]
    exact ⟨(validateId_union snv v).mpr (Or.inr hval), rfl⟩

/-- Witness for C1 at the two scenario strings of the spec. -/
theorem parse_union_of_concrete_witness :
    (roomIdOrAliasIdFromStr serverNameValidate aliasSample = .ok aliasSample ∧
      variant aliasSample = some Variant.RoomAliasId)
    ∧ (roomIdOrAliasIdFromStr serverNameValidate roomIdSample = .ok roomIdSample ∧
      variant roomIdSample = some Variant.RoomId) :=
  ⟨(parse_union_of_concrete serverNameValidate aliasSample).2.2 aliasSample (by rfl),
    (parse_union_of_concrete serverNameValidate roomIdSample).2.1 roomIdSample (by rfl)⟩

/-- Claim C4: parsing a string that is empty or whose first character is
neither `!` nor `#` fails with `MissingLeadingSigil`, whatever the rest of
the string and whatever the server-name validator: the sigil check precedes
the delimiter and server-name checks. -/
theorem parse_missing_leading_sigil (snv : Str → Bool) (s : Str)
    (h : s = [] ∨ ∃ c rest, s = c :: rest ∧ c ∉ (['!', '#'] : List Char)) :
    roomIdOrAliasIdFromStr snv s = .error .MissingLeadingSigil := by
  rcases h with rfl | ⟨c, rest, rfl, hc⟩
  · rfl
  · simp [roomIdOrAliasIdFromStr, roomIdOrAliasIdValidate, validateId, hc, Except.map]

/-- Witness for C4 at the no-sigil scenario string of the spec. -/
theorem parse_missing_leading_sigil_witness :
    roomIdOrAliasIdFromStr serverNameValidate noSigilSample =
      .error .MissingLeadingSigil :=
  parse_missing_leading_sigil serverNameValidate noSigilSample
    (Or.inr ⟨'r', "uma:example.com".toList, by decide, by decide⟩)

/-- Claim C5: on every validly constructed value, `localpart` returns exactly
the characters strictly between the sigil at index 1 and the first colon,
exclusive: the string decomposes uniquely as a sigil, a colon-free localpart
`l`, a colon and a remainder, and `localpart` returns `l`. -/
theorem localpart_between_sigil_and_colon (snv : Str → Bool) (s : Str)
    (h : roomIdOrAliasIdValidate snv s = .ok ()) :
    ∃ c l r, s = c :: (l ++ ':' :: r) ∧ c ∈ (['!', '#'] : List Char) ∧
      ':' ∉ l ∧ localpart s = some l := by
  obtain ⟨c, l, r, hs, hc, hnl, hsnv, hfc, htake, hdropr⟩ :=
    validateId_ok_decomp ['!', '#'] snv s (by decide) h
  refine ⟨c, l, r, hs, hc, hnl, ?_⟩
  simp only [localpart, colon_idx, hfc, Option.map_some']
  rw [htake]

/-- Witness for C5: scenario A of the spec, where the localpart of
`#ruma:example.com` is `ruma`. -/
theorem localpart_between_sigil_and_colon_witness :
    (∃ c l r, aliasSample = c :: (l ++ ':' :: r) ∧ c ∈ (['!', '#'] : List Char) ∧
      ':' ∉ l ∧ localpart aliasSample = some l)
    ∧ localpart aliasSample = some "ruma".toList :=
  ⟨localpart_between_sigil_and_colon serverNameValidate aliasSample (by rfl),
    by decide⟩

/-- Claim C6: on every validly constructed value, `server_name` returns the
segment strictly after the first colon and never fails: the colon search of
`colon_idx` finds a colon (its `unwrap` cannot panic) and the re-validation
inside `server_name` succeeds (its `unwrap` cannot panic either). -/
theorem server_name_total_on_valid (snv : Str → Bool) (s : Str)
    (h : roomIdOrAliasIdValidate snv s = .ok ()) :
    ∃ i r, colon_idx s = some i ∧ server_name snv s = some r ∧
      r = s.drop (i + 1) ∧ snv r = true := by
  obtain ⟨c, l, r, hs, hc, hnl, hsnv, hfc, htake, hdropr⟩ :=
    validateId_ok_decomp ['!', '#'] snv s (by decide) h
  refine ⟨l.length + 1, r, hfc, ?_, ?_, hsnv⟩
  · have hdr : s.drop (l.length + 1 + 1) = r := hdropr
    simp [server_name, colon_idx, hfc, hdr, hsnv]
  · exact hdropr.symm

/-- Witness for C6: scenario A of the spec, where the server name of
`#ruma:example.com` is `example.com`. -/
theorem server_name_total_on_valid_witness :
    (∃ i r, colon_idx aliasSample = some i ∧
      server_name serverNameValidate aliasSample = some r ∧
      r = aliasSample.drop (i + 1) ∧ serverNameValidate r = true)
    ∧ server_name serverNameValidate aliasSample = some "example.com".toList :=
  ⟨server_name_total_on_valid serverNameValidate aliasSample (by rfl),
    by decide⟩



/-- Claim C2: for every validly constructed value, the narrowing conversion
to `RoomId` succeeds exactly when the variant is `RoomId`, the narrowing
conversion to `RoomAliasId` succeeds exactly when the variant is
`RoomAliasId` (the two variants being the only possibilities), and the
failing direction returns the same bytes reinterpreted as the other concrete
type: no generic error, no byte change, and no internal `unwrap` panic. -/
theorem narrow_owned_conversions (snv : Str → Bool) (s : Str)
    (h : roomIdOrAliasIdValidate snv s = .ok ()) :
    (variant s = some Variant.RoomId →
      tryIntoRoomId snv s = some (.ok s) ∧
      tryIntoRoomAliasId snv s = some (.error s))
    ∧ (variant s = some Variant.RoomAliasId →
      tryIntoRoomId snv s = some (.error s) ∧
      tryIntoRoomAliasId snv s = some (.ok s))
    ∧ (variant s = some Variant.RoomId ∨ variant s = some Variant.RoomAliasId) := by
  refine ⟨?_, ?_, union_variant_total snv s h⟩
  · intro hv
    have hid : roomIdValidate snv s = .ok () := roomIdValidate_of_union snv s h hv
    constructor
    · simp [tryIntoRoomId, hv, roomIdFromStr, hid, Except.map, Except.toOption]
    · simp [tryIntoRoomAliasId, hv, roomIdFromStr, hid, Except.map, Except.toOption]
  · intro hv
    have hal : roomAliasIdValidate snv s = .ok () := roomAliasIdValidate_of_union snv s h hv
    constructor
    · simp [tryIntoRoomId, hv, roomAliasIdFromStr, hal, Except.map, Except.toOption]
    · simp [tryIntoRoomAliasId, hv, roomAliasIdFromStr, hal, Except.map, Except.toOption]

/-- Witness for C2: narrowing the alias-kind scenario value to `RoomId`
fails and hands back the same bytes as a `RoomAliasId`. -/
theorem narrow_owned_conversions_witness :
    tryIntoRoomId serverNameValidate aliasSample = some (.error aliasSample) ∧
    tryIntoRoomAliasId serverNameValidate aliasSample = some (.ok aliasSample) :=
  (narrow_owned_conversions serverNameValidate aliasSample (by rfl)).2.1 (by decide)

/-- Claim C7: the widening conversions are total and lossless and round-trip:
a string accepted by the `RoomId` validator widens to a `RoomIdOrAliasId`
with unchanged bytes and narrows back to the same `RoomId`; symmetrically
for `RoomAliasId`. -/
theorem widening_total_lossless_roundtrip (snv : Str → Bool) (s : Str) :
    (roomIdValidate snv s = .ok () →
      fromRoomId snv s = some s ∧ tryIntoRoomId snv s = some (.ok s))
    ∧ (roomAliasIdValidate snv s = .ok () →
      fromRoomAliasId snv s = some s ∧ tryIntoRoomAliasId snv s = some (.ok s)) := by
  constructor
  · intro hid
    have hu : roomIdOrAliasIdValidate snv s = .ok () :=
      (validateId_union snv s).mpr (Or.inl hid)
    have hv : variant s = some Variant.RoomId := variant_of_roomIdValidate snv s hid
    constructor
    · simp [fromRoomId, roomIdOrAliasIdFromStr, hu, Except.map, Except.toOption]
    · simp [tryIntoRoomId, hv, roomIdFromStr, hid, Except.map, Except.toOption]
  · intro hal
    have hu : roomIdOrAliasIdValidate snv s = .ok () :=
      (validateId_union snv s).mpr (Or.inr hal)
    have hv : variant s = some Variant.RoomAliasId :=
      variant_of_roomAliasIdValidate snv s hal
    constructor
    · simp [fromRoomAliasId, roomIdOrAliasIdFromStr, hu, Except.map, Except.toOption]
    · simp [tryIntoRoomAliasId, hv, roomAliasIdFromStr, hal, Except.map, Except.toOption]

/-- Witness for C7 at the two scenario strings of the spec. -/
theorem widening_total_lossless_roundtrip_witness :
    (fromRoomId serverNameValidate roomIdSample = some roomIdSample ∧
      tryIntoRoomId serverNameValidate roomIdSample = some (.ok roomIdSample))
    ∧ (fromRoomAliasId serverNameValidate aliasSample = some aliasSample ∧
      tryIntoRoomAliasId serverNameValidate aliasSample = some (.ok aliasSample)) :=
  ⟨(widening_total_lossless_roundtrip serverNameValidate roomIdSample).1 (by rfl),
    (widening_total_lossless_roundtrip serverNameValidate aliasSample).2 (by rfl)⟩

/-- Claim C8: serialization round-trips exactly: the textual form of a valid
value is the exact byte sequence it was constructed from, parsing that form
returns the same bytes, the JSON encoding is that same string as a single
scalar, and decoding it through the validated construction path returns the
same bytes. -/
theorem serialization_roundtrip (snv : Str → Bool) (s : Str)
    (h : roomIdOrAliasIdValidate snv s = .ok ()) :
    serializeText s = s
    ∧ roomIdOrAliasIdFromStr snv (serializeText s) = .ok s
    ∧ jsonEncode s = JsonValue.str s
    ∧ jsonDecode snv (jsonEncode s) = some (.ok s) := by
  refine ⟨rfl, ?_, rfl, ?_⟩
  · exact (fromStr_ok_iff (roomIdOrAliasIdValidate snv s) s s).mpr ⟨h, rfl⟩
  · show some (roomIdOrAliasIdFromStr snv (serializeText s)) = some (.ok s)
    exact congrArg some ((fromStr_ok_iff (roomIdOrAliasIdValidate snv s) s s).mpr ⟨h, rfl⟩)

/-- Witness for C8: scenario D of the spec, the JSON round trip of
`#ruma:example.com`. -/
theorem serialization_roundtrip_witness :
    jsonDecode serverNameValidate (jsonEncode aliasSample) = some (.ok aliasSample) :=
  (serialization_roundtrip serverNameValidate aliasSample (by rfl)).2.2.2

/-- Claim C9: the consuming total classification `into_either` always
succeeds on a validly constructed value and returns exactly one of the two
concrete types, matching the variant and carrying the original bytes
unchanged: `Either.left` with the bytes as a `RoomId` when the variant is
`RoomId`, `Either.right` with the bytes as a `RoomAliasId` when the variant
is `RoomAliasId`. -/
theorem into_either_total_lossless (snv : Str → Bool) (s : Str)
    (h : roomIdOrAliasIdValidate snv s = .ok ()) :
    (variant s = some Variant.RoomId ∧ into_either s = some (Either.left s))
    ∨ (variant s = some Variant.RoomAliasId ∧ into_either s = some (Either.right s)) := by
  rcases union_variant_total snv s h with hv | hv
  · exact Or.inl ⟨hv, by simp [into_either, hv]⟩
  · exact Or.inr ⟨hv, by simp [into_either, hv]⟩

/-- Witness for C9 at the room-id scenario string of the spec. -/
theorem into_either_total_lossless_witness :
    (variant roomIdSample = some Variant.RoomId ∧
      into_either roomIdSample = some (Either.left roomIdSample))
    ∨ (variant roomIdSample = some Variant.RoomAliasId ∧
      into_either roomIdSample = some (Either.right roomIdSample)) :=
  into_either_total_lossless serverNameValidate roomIdSample (by rfl)

/-- Claim C10: on every validly constructed value the predicates
`is_room_id` and `is_room_alias_id` agree with the first character (`!`
gives `is_room_id`, `#` gives `is_room_alias_id`) and exactly one of them is
true; both are pure functions of the immutable string, computed from it on
every call rather than stored, so repeated calls return the same answers. -/
theorem predicates_exclusive_exhaustive (snv : Str → Bool) (s : Str)
    (h : roomIdOrAliasIdValidate snv s = .ok ()) :
    (is_room_id s = true ↔ s.head? = some '!')
    ∧ (is_room_alias_id s = true ↔ s.head? = some '#')
    ∧ is_room_id s ≠ is_room_alias_id s := by
  obtain ⟨c, rest, i, hs, hc, -, -⟩ := validateId_ok_elim _ _ _ h
  subst hs
  simp only [List.mem_cons, List.not_mem_nil, or_false] at hc
  refine ⟨?_, ?_, ?_⟩
  · rw [show is_room_id (c :: rest) = true ↔ c = '!' by
      simp [is_room_id, variant_cons_roomId]]
    simp
  · rw [show is_room_alias_id (c :: rest) = true ↔ c = '#' by
      simp [is_room_alias_id, variant_cons_alias]]
    simp
  · rcases hc with rfl | rfl <;> simp [is_room_id, is_room_alias_id, variant]

/-- Witness for C10 at the alias scenario string of the spec. -/
theorem predicates_exclusive_exhaustive_witness :
    (is_room_id aliasSample = true ↔ aliasSample.head? = some '!')
    ∧ (is_room_alias_id aliasSample = true ↔ aliasSample.head? = some '#')
    ∧ is_room_id aliasSample ≠ is_room_alias_id aliasSample :=
  predicates_exclusive_exhaustive serverNameValidate aliasSample (by rfl)

end Ruma
